import Mathlib

/-!
Shallow embedding of the gemini-cli VS Code IDE companion control plane:

* the workspace-context aggregator `OpenFilesManager`
  (`open-files-manager.ts`): MRU tracked-file list, cursor/selection
  updates with truncation, remove/rename handling;
* the diff lifecycle `DiffManager` / `DiffContentProvider`
  (`diff-manager.ts`): diff-view registry keyed by the generated right
  document URI, accept teardown, no-op on unknown identifiers;
* the session layer `IDEServer` (`ide-server.ts`): CORS/Host/Bearer
  access-control middleware chain, the POST /mcp session dispatch, and
  the per-session keep-alive ping counter.

Pure functions are translated directly; the in-place mutation of `File`
records (relevant to snapshot aliasing) is additionally modelled with an
explicit heap in the `Ref`-suffixed definitions.
-/

/-! Workspace context aggregator (`OpenFilesManager`), value-level model. -/

-- open-files-manager.ts line 16
def MAX_FILES : Nat := 10

-- open-files-manager.ts line 17 (16 KiB limit)
def MAX_SELECTED_TEXT_LENGTH : Nat := 16384

-- open-files-manager.ts line 200: the fixed suffix appended on truncation
def TRUNCATION_MARKER : String := "... [TRUNCATED]"

/-- Cursor position as stored by the aggregator (1-based line, 0-based column). -/
structure Cursor where
  line : Nat
  character : Nat
deriving DecidableEq, Repr

/-- The `File` record of `@google/gemini-cli-core` ide types, as populated by
`OpenFilesManager` (path, timestamp, isActive, optional cursor/selectedText). -/
structure File where
  path : String
  timestamp : Nat
  isActive : Bool
  cursor : Option Cursor
  selectedText : Option String
deriving DecidableEq, Repr

/-- The data the aggregator reads from a `vscode.TextEditor`: the document's
fsPath, the selection's active position (0-based line/character) and
`document.getText(editor.selection)` (empty string for an empty selection). -/
structure Editor where
  path : String
  selLine : Nat
  selCharacter : Nat
  selText : String
deriving DecidableEq, Repr

/-- `array.find(p)` followed by an in-place field update of the found element:
rewrites the first element satisfying `p` by `m`, leaves the rest unchanged. -/
def modifyFirst (p : α → Bool) (m : α → α) : List α → List α
  | [] => []
  | x :: xs => if p x then m x :: xs else x :: modifyFirst p m xs

-- open-files-manager.ts lines 187-193: cursor from the selection's active
-- position; `editor.selection.active` is always a Position object, so the
-- conditional always takes the object branch: line + 1 (1-based), character.
def editorCursor (e : Editor) : Option Cursor :=
  some { line := e.selLine + 1, character := e.selCharacter }

-- open-files-manager.ts lines 195-201:
-- `getText(selection) || undefined`, then truncation past 16384 chars with
-- `selectedText.substring(0, MAX_SELECTED_TEXT_LENGTH) + '... [TRUNCATED]'`.
def truncateSelected (s : String) : Option String :=
  if s = "" then none
  else if MAX_SELECTED_TEXT_LENGTH < s.length then
    some (String.mk (s.data.take MAX_SELECTED_TEXT_LENGTH ++ TRUNCATION_MARKER.data))
  else some s

-- open-files-manager.ts lines 176-203 (updateActiveContext)
def updateActiveContext (e : Editor) (files : List File) : List File :=
  match files.find? (fun f => f.path == e.path) with
  | none => files
  | some f =>
    if f.isActive then
      modifyFirst (fun g => g.path == e.path)
        (fun g => { g with cursor := editorCursor e,
                           selectedText := truncateSelected e.selText }) files
    else files

-- open-files-manager.ts lines 122-129: deactivate the previous active file
def clearFile (f : File) : File :=
  { f with isActive := false, cursor := none, selectedText := none }

-- open-files-manager.ts lines 142-147: the freshly unshifted entry
def newFileEntry (e : Editor) (now : Nat) : File :=
  { path := e.path, timestamp := now, isActive := true,
    cursor := none, selectedText := none }

-- open-files-manager.ts lines 149-153: enforce max length (`pop()` the tail)
def capAtMaxFiles (l : List α) : List α :=
  if MAX_FILES < l.length then l.dropLast else l

-- open-files-manager.ts lines 120-156 (addOrMoveToFront)
def addOrMoveToFront (e : Editor) (now : Nat) (files : List File) : List File :=
  let files1 := modifyFirst (fun f => f.isActive) clearFile files
  let files2 := files1.eraseP (fun f => f.path == e.path)
  let files3 := newFileEntry e now :: files2
  let files4 := capAtMaxFiles files3
  updateActiveContext e files4

-- open-files-manager.ts lines 158-165 (remove)
def removeEntry (p : String) (files : List File) : List File :=
  files.eraseP (fun f => f.path == p)

-- open-files-manager.ts lines 167-174 (rename): in-place path update
def renameEntry (oldP newP : String) (files : List File) : List File :=
  modifyFirst (fun f => f.path == oldP) (fun f => { f with path := newP }) files

/-- The aggregator's mutating events, post `isFileUri` guard: activation of an
editor, a selection change, a document close, a file delete, a rename whose
target is still a file URI, and a rename to a non-file target (treated as a
removal, open-files-manager.ts lines 85-89). -/
inductive OfmEvent where
  | activate (e : Editor) (now : Nat)
  | selectionChange (e : Editor)
  | closeDoc (p : String)
  | deleteFile (p : String)
  | rename (oldP newP : String)
  | renameToNonFile (oldP : String)
deriving Repr

def applyEvent (files : List File) : OfmEvent → List File
  | .activate e now => addOrMoveToFront e now files
  | .selectionChange e => updateActiveContext e files
  | .closeDoc p => removeEntry p files
  | .deleteFile p => removeEntry p files
  | .rename o n => renameEntry o n files
  | .renameToNonFile o => removeEntry o files

/-- Running a sequence of aggregator events on the initially empty list. -/
def runEvents (evs : List OfmEvent) : List File :=
  evs.foldl applyEvent []

/-- Running a sequence of pure activations (`onDidChangeActiveTextEditor`). -/
def runActivations (evs : List (Editor × Nat)) : List File :=
  evs.foldl (fun fs en => addOrMoveToFront en.1 en.2 fs) []

/-- Spec-side MRU step, written from the spec's words (spec.md section 4.3):
"if the newly active file is already tracked, remove its old list position;
insert at the front; if the list now exceeds 10 entries, drop the oldest
(tail)". -/
def mruStep (l : List String) (p : String) : List String :=
  (p :: l.filter (fun q => q != p)).take MAX_FILES

/-- Spec-side MRU list after a sequence of activations of the given paths. -/
def mruSpecList (paths : List String) : List String :=
  paths.foldl mruStep []

/-- Number of tracked files with the active flag set. -/
def activeCount (l : List File) : Nat :=
  (l.filter (fun f => f.isActive)).length

/-- Cursor and selection are absent. -/
def fileClearedProp (f : File) : Prop :=
  f.cursor = none ∧ f.selectedText = none

instance (f : File) : Decidable (fileClearedProp f) := by
  unfold fileClearedProp; infer_instance

/-- Every inactive tracked file carries no cursor and no selection. -/
def inactiveCleared (l : List File) : Prop :=
  ∀ f ∈ l, f.isActive = false → fileClearedProp f

/-- The aggregator's active-flag invariant (spec.md section 3, TrackedFile). -/
def OfmInv (l : List File) : Prop :=
  activeCount l ≤ 1 ∧ inactiveCleared l

instance (l : List File) : Decidable (OfmInv l) := by
  unfold OfmInv inactiveCleared; infer_instance

/-- The combined reachability invariant of the tracked-file list: the
active-flag invariant plus "no stored selection is the empty string". -/
def GoodState (l : List File) : Prop :=
  OfmInv l ∧ ∀ f ∈ l, f.selectedText ≠ some ""

instance (l : List File) : Decidable (GoodState l) := by
  unfold GoodState; infer_instance

/-! Workspace context aggregator, reference-level (heap) model.  The JS
`File` records are mutable objects: `state` (open-files-manager.ts lines
217-227) copies the `openFiles` array (`[...this.openFiles]`) but the record
objects themselves are shared between the copy and the manager.  The heap
model makes that aliasing explicit: records live at numeric ids, the manager
holds a list of ids, and a snapshot is the id list at the time of the read. -/

structure RefState where
  heap : Nat → File
  nextId : Nat
  openFiles : List Nat

def setHeap (h : Nat → File) (i : Nat) (f : File) : Nat → File :=
  fun j => if j = i then f else h j

/-- Reading a snapshot (a saved id list) against the current heap: the record
fields an earlier `state` result exhibits once the manager has moved on. -/
def observeRef (ids : List Nat) (s : RefState) : List File :=
  ids.map s.heap

-- open-files-manager.ts lines 122-129, heap-level: mutate the record of the
-- first active id in place
def deactivateRef (s : RefState) : RefState :=
  match s.openFiles.find? (fun i => (s.heap i).isActive) with
  | none => s
  | some i => { s with heap := setHeap s.heap i (clearFile (s.heap i)) }

-- open-files-manager.ts lines 176-203, heap-level
def updateActiveContextRef (e : Editor) (s : RefState) : RefState :=
  match s.openFiles.find? (fun i => (s.heap i).path == e.path) with
  | none => s
  | some i =>
    if (s.heap i).isActive then
      let updated := { s.heap i with
        cursor := editorCursor e
        selectedText := truncateSelected e.selText }
      { s with heap := setHeap s.heap i updated }
    else s

-- open-files-manager.ts lines 120-156, heap-level: the unshifted entry is a
-- fresh object (a fresh id); the spliced-out old entry's object is abandoned,
-- not mutated
def addOrMoveToFrontRef (e : Editor) (now : Nat) (s : RefState) : RefState :=
  let s1 := deactivateRef s
  let ids2 := s1.openFiles.eraseP (fun i => (s1.heap i).path == e.path)
  let newId := s1.nextId
  let heap3 := setHeap s1.heap newId (newFileEntry e now)
  let ids3 := newId :: ids2
  let ids4 := capAtMaxFiles ids3
  updateActiveContextRef e { heap := heap3, nextId := newId + 1, openFiles := ids4 }

-- open-files-manager.ts lines 158-165, heap-level: only the id list changes
def removeRef (p : String) (s : RefState) : RefState :=
  { s with openFiles := s.openFiles.eraseP (fun i => (s.heap i).path == p) }

-- open-files-manager.ts lines 167-174, heap-level: in-place path update
def renameRef (oldP newP : String) (s : RefState) : RefState :=
  match s.openFiles.find? (fun i => (s.heap i).path == oldP) with
  | none => s
  | some i => { s with heap := setHeap s.heap i { s.heap i with path := newP } }

/-- The manager's state before any editor event. -/
def refInit : RefState :=
  { heap := fun _ => { path := "", timestamp := 0, isActive := false,
                       cursor := none, selectedText := none },
    nextId := 0, openFiles := [] }

/-- All tracked ids were allocated earlier than `nextId`. -/
def RefWF (s : RefState) : Prop :=
  ∀ j ∈ s.openFiles, j < s.nextId

instance (s : RefState) : Decidable (RefWF s) := by
  unfold RefWF; infer_instance

/-! Diff lifecycle (`DiffManager` and `DiffContentProvider`,
diff-manager.ts).  The registry `diffDocuments` and the provider's `content`
map are JS `Map`s keyed by `rightDocUri.toString()`; `toString` is injective
on the (scheme, path, query) triples built here, so the model keys directly
by the URI triple.  The maps are association lists with unique keys, exactly
the observable behavior of a JS `Map`. -/

structure DiffUri where
  scheme : String
  path : String
  query : String
deriving DecidableEq, Repr

-- extension.ts line 23
def DIFF_SCHEME : String := "gemini-diff"

-- diff-manager.ts lines 322-328: the right document URI, with the
-- cache-busting random query component (`rand=${Math.random()}`); the random
-- draw is an input of the model
def mkRightDocUri (filePath : String) (rand : String) : DiffUri :=
  { scheme := DIFF_SCHEME, path := filePath, query := "rand=" ++ rand }

/-- diff-manager.ts DiffInfo. -/
structure DiffInfo where
  originalFilePath : String
  newContent : String
  rightDocUri : DiffUri
deriving DecidableEq, Repr

/-- JS `Map.set`: replace the value at an existing key in place, else append. -/
def setA (k : DiffUri) (v : α) : List (DiffUri × α) → List (DiffUri × α)
  | [] => [(k, v)]
  | (k1, v1) :: rest =>
    if k1 = k then (k, v) :: rest else (k1, v1) :: setA k v rest

/-- JS `Map.get`. -/
def getA (k : DiffUri) : List (DiffUri × α) → Option α
  | [] => none
  | (k1, v1) :: rest => if k1 = k then some v1 else getA k rest

/-- JS `Map.delete` (keys are unique, so deleting the first match suffices). -/
def delA (k : DiffUri) : List (DiffUri × α) → List (DiffUri × α)
  | [] => []
  | (k1, v1) :: rest =>
    if k1 = k then rest else (k1, v1) :: delA k rest

/-- The diff manager's mutable state: `diffDocuments` plus the
`DiffContentProvider`'s `content` map. -/
structure DiffState where
  diffDocuments : List (DiffUri × DiffInfo)
  providerContent : List (DiffUri × String)
deriving DecidableEq, Repr

/-- Keys of both maps are unique (true of every JS `Map`). -/
def DiffWF (s : DiffState) : Prop :=
  (s.diffDocuments.map Prod.fst).Nodup ∧ (s.providerContent.map Prod.fst).Nodup

-- diff-manager.ts lines 318-336 (showDiff): build the right URI, setContent,
-- addDiffDocument.  The UI commands (vscode.diff etc.) are outside the state.
def showDiff (filePath newContent : String) (rand : String) (s : DiffState) :
    DiffState :=
  let rightDocUri := mkRightDocUri filePath rand
  { providerContent := setA rightDocUri newContent s.providerContent,
    diffDocuments := setA rightDocUri
      { originalFilePath := filePath, newContent := newContent,
        rightDocUri := rightDocUri } s.diffDocuments }

-- diff-manager.ts lines 513-527 (closeDiffEditor): if the diff is registered,
-- remove the record and release the provider's content entry (tab closing is
-- UI-only)
def closeDiffEditor (rightDocUri : DiffUri) (s : DiffState) : DiffState :=
  match getA rightDocUri s.diffDocuments with
  | none => s
  | some _ =>
    { diffDocuments := delA rightDocUri s.diffDocuments,
      providerContent := delA rightDocUri s.providerContent }

/-- The JSON-RPC notifications the diff manager emits. -/
inductive DiffEvent where
  | diffAccepted (filePath content : String)
  | diffClosed (filePath content : String)
deriving DecidableEq, Repr

-- diff-manager.ts lines 424-449 (acceptDiff).  `docText` is the rendering
-- collaborator: `openTextDocument(rightDocUri).getText()`, the current
-- (possibly user-edited) text of the proposed-content surface.
def acceptDiff (docText : DiffUri → String) (rightDocUri : DiffUri)
    (s : DiffState) : DiffState × Option DiffEvent :=
  match getA rightDocUri s.diffDocuments with
  | none => (s, none)
  | some diffInfo =>
    let modifiedContent := docText rightDocUri
    (closeDiffEditor rightDocUri s,
     some (.diffAccepted diffInfo.originalFilePath modifiedContent))

/-! Session layer (`IDEServer`, ide-server.ts): middleware chain and the
POST /mcp dispatch. -/

/-- The server state the request pipeline reads: the per-process random auth
token, the bound port, and the keys of the `transports` session table. -/
structure ServerState where
  authToken : String
  port : Nat
  sessions : List String
deriving DecidableEq, Repr

/-- An incoming HTTP request as seen by the middleware chain: Origin header,
Host header (absent modelled as `""`, matching `req.headers.host || ''`),
Authorization header, the `mcp-session-id` header, and whether the JSON body
is an MCP initialization request (`isInitializeRequest(req.body)`). -/
structure HttpRequest where
  origin : Option String
  host : String
  authorization : Option String
  sessionId : Option String
  initRequest : Bool
deriving DecidableEq, Repr

/-- JS `String.prototype.split` with a single-character separator, on the
character list of the string. -/
def splitOnChar (c : Char) : List Char → List (List Char)
  | [] => [[]]
  | x :: xs =>
    if x = c then [] :: splitOnChar c xs
    else
      match splitOnChar c xs with
      | [] => [[x]]
      | y :: ys => (x :: y) :: ys

/-- `authHeader.split(' ')` (ide-server.ts line 198). -/
def jsSplit (s : String) (c : Char) : List String :=
  (splitOnChar c s.data).map String.mk

/-- ide-server.ts lines 177-181. -/
def allowedHosts (st : ServerState) : List String :=
  ["localhost:" ++ toString st.port, "127.0.0.1:" ++ toString st.port]

/-- The access-control middleware chain in source order (ide-server.ts lines
155-213): the CORS origin callback rejects any request with an Origin header
(403 via the error handler at lines 369-380); the Host middleware rejects
unknown hosts with 403; the Bearer middleware rejects a missing, malformed,
or mismatched Authorization header with 401.  `none` means all checks pass. -/
def checkAccess (st : ServerState) (req : HttpRequest) : Option Nat :=
  if req.origin.isSome then some 403
  else if ¬ (allowedHosts st).contains req.host then some 403
  else
    match req.authorization with
    | none => some 401
    | some authHeader =>
      let parts := jsSplit authHeader ' '
      if parts.length ≠ 2 ∨ parts.get? 0 ≠ some "Bearer" then some 401
      else if parts.get? 1 ≠ some st.authToken then some 401
      else none

/-- JS truthiness of the session-id header (`undefined` and `''` are falsy). -/
def sidTruthy : Option String → Bool
  | none => false
  | some s => s != ""

/-- How POST /mcp disposes of a request that reached the route handler. -/
inductive McpOutcome where
  | rejected (status : Nat) (rpcErrorCode : Option Int)
  | forwarded (sid : String)
  | sessionCreated (sid : String)
deriving DecidableEq, Repr

/-- POST /mcp (ide-server.ts lines 235-304) behind the middleware chain:
reuse the transport of a known session id; otherwise create a session for an
initialization request without a session id (the transport's generated id
`newSid` enters the table via `onsessioninitialized`); otherwise 400 with the
JSON-RPC error code -32000 and an untouched table.  Rejections never reach
`transport.handleRequest`, so no tool (diff) or context logic runs. -/
def handlePostMcp (st : ServerState) (req : HttpRequest) (newSid : String) :
    McpOutcome × List String :=
  match checkAccess st req with
  | some status => (.rejected status none, st.sessions)
  | none =>
    if sidTruthy req.sessionId && st.sessions.contains (req.sessionId.getD "") then
      (.forwarded (req.sessionId.getD ""), st.sessions)
    else if !sidTruthy req.sessionId && req.initRequest then
      (.sessionCreated newSid, newSid :: st.sessions)
    else
      (.rejected 400 (some (-32000)), st.sessions)

/-! Keep-alive (ide-server.ts lines 254-285): per-session `missedPings`
counter, the 60-second interval, and the `onclose` cleanup, modelled as a
step machine driven by ping outcomes and transport closure. -/

/-- One session's liveness state: the `missedPings` counter, whether the
`keepAlive` interval is still scheduled, and whether the session's entry is
in the `transports` table. -/
structure KeepAliveState where
  missedPings : Nat
  intervalActive : Bool
  inTable : Bool
deriving DecidableEq, Repr

inductive PingResult where
  | ok
  | failed
deriving DecidableEq, Repr

/-- One interval tick (no tick occurs once the interval is cleared): a
delivered ping resets `missedPings`; a failed send increments it, and on the
third consecutive miss `clearInterval(keepAlive)` stops further pings —
nothing is deleted from the table here. -/
def pingTick (r : PingResult) (s : KeepAliveState) : KeepAliveState :=
  if !s.intervalActive then s
  else
    match r with
    | .ok => { s with missedPings := 0 }
    | .failed =>
      let m := s.missedPings + 1
      if 3 ≤ m then { s with missedPings := m, intervalActive := false }
      else { s with missedPings := m }

/-- `transport.onclose` (ide-server.ts lines 276-285): clear the interval and
delete the session's entry from the table. -/
def transportClose (s : KeepAliveState) : KeepAliveState :=
  { s with intervalActive := false, inTable := false }

/-! Concrete states used to exhibit the snapshot-aliasing behavior of
`OpenFilesManager.state` (claim C9). -/

def c9editorA : Editor :=
  { path := "a", selLine := 0, selCharacter := 0, selText := "sel" }

def c9editorB : Editor :=
  { path := "b", selLine := 0, selCharacter := 0, selText := "" }

/-- Manager state after activating file `a`. -/
def c9s1 : RefState := addOrMoveToFrontRef c9editorA 1 refInit

/-- A `state` snapshot taken while `a` is active: the copied id array. -/
def c9snap : List Nat := c9s1.openFiles

/-- Manager state after a subsequent activation of file `b`. -/
def c9s2 : RefState := addOrMoveToFrontRef c9editorB 2 c9s1

/-! Generic list helpers. -/

theorem length_modifyFirst (p : α → Bool) (m : α → α) (l : List α) :
    (modifyFirst p m l).length = l.length := by
  induction l with
  | nil => rfl
  | cons x xs ih => cases h : p x <;> simp [modifyFirst, h, ih]

theorem map_modifyFirst (p : α → Bool) (m : α → α) (g : α → β)
    (hm : ∀ x, g (m x) = g x) (l : List α) :
    (modifyFirst p m l).map g = l.map g := by
  induction l with
  | nil => rfl
  | cons x xs ih => cases h : p x <;> simp [modifyFirst, h, ih, hm]

/-- Decomposition of a successful `find?`: the list splits at the found
element, everything before it refutes the predicate, and `modifyFirst`
rewrites exactly that element. -/
theorem find?_split {p : α → Bool} {l : List α} {x : α}
    (h : l.find? p = some x) :
    ∃ l1 l2, l = l1 ++ x :: l2 ∧ (∀ z ∈ l1, p z = false) ∧
      ∀ m : α → α, modifyFirst p m l = l1 ++ m x :: l2 := by
  induction l with
  | nil => simp [List.find?] at h
  | cons a as ih =>
    cases ha : p a with
    | true =>
      rw [List.find?_cons_of_pos _ ha, Option.some.injEq] at h
      subst h
      exact ⟨[], as, rfl, by simp, fun m => by simp [modifyFirst, ha]⟩
    | false =>
      rw [List.find?_cons_of_neg _ (by simp [ha])] at h
      obtain ⟨l1, l2, hl, hneg, hmod⟩ := ih h
      refine ⟨a :: l1, l2, by simp [hl], ?_, fun m => by simp [modifyFirst, ha, hmod m]⟩
      intro z hz
      rcases List.mem_cons.mp hz with hz | hz
      · exact hz ▸ ha
      · exact hneg z hz

theorem modifyFirst_of_forall_neg {p : α → Bool} {l : List α}
    (h : ∀ x ∈ l, p x = false) (m : α → α) : modifyFirst p m l = l := by
  induction l with
  | nil => rfl
  | cons a as ih =>
    simp [modifyFirst, h a (List.mem_cons_self a as),
      ih fun x hx => h x (List.mem_cons_of_mem a hx)]

theorem find?_append_cons {p : α → Bool} {l1 : List α}
    (h1 : ∀ z ∈ l1, p z = false) {y : α} (hy : p y = true) (l2 : List α) :
    (l1 ++ y :: l2).find? p = some y := by
  induction l1 with
  | nil => simpa using List.find?_cons_of_pos l2 hy
  | cons a as ih =>
    rw [List.cons_append,
      List.find?_cons_of_neg _ (by simp [h1 a (List.mem_cons_self a as)])]
    exact ih fun z hz => h1 z (List.mem_cons_of_mem a hz)

/-- Bounding the unshift-then-pop: the front element is preserved and the
rest comes from the original tail. -/
theorem cap_cons (a : α) (l : List α) :
    ∃ t, capAtMaxFiles (a :: l) = a :: t ∧ ∀ x ∈ t, x ∈ l := by
  unfold capAtMaxFiles
  by_cases h : MAX_FILES < (a :: l).length
  · cases l with
    | nil => simp [MAX_FILES] at h
    | cons b t2 =>
      refine ⟨(b :: t2).dropLast, by rw [if_pos h]; rfl, ?_⟩
      intro x hx
      exact (List.dropLast_sublist (b :: t2)).subset hx
  · exact ⟨l, by rw [if_neg h], fun x hx => hx⟩

/-! Path projection of the aggregator's operations (claim C3). -/

theorem map_path_eraseP (x : String) (l : List File) :
    (l.eraseP (fun f => f.path == x)).map File.path
      = (l.map File.path).eraseP (fun q => q == x) := by
  induction l with
  | nil => rfl
  | cons f fs ih =>
    cases h : (f.path == x) <;> simp [List.eraseP_cons, h, ih]

theorem eraseP_beq_eq_filter_of_nodup (x : String) :
    ∀ l : List String, l.Nodup →
      l.eraseP (fun q => q == x) = l.filter (fun q => q != x) := by
  intro l
  induction l with
  | nil => exact fun _ => rfl
  | cons a as ih =>
    intro hl
    rw [List.nodup_cons] at hl
    cases h : (a == x) with
    | true =>
      have hax : a = x := by simpa using h
      subst hax
      have hself : List.filter (fun q => q != a) as = as := by
        rw [List.filter_eq_self]
        intro q hq
        simp only [bne_iff_ne, ne_eq]
        exact fun hqa => hl.1 (hqa ▸ hq)
      simp [List.eraseP_cons, h, List.filter_cons, hself]
    | false =>
      have hne : (a != x) = true := by simp [bne, h]
      simp [List.eraseP_cons, h, List.filter_cons, hne, ih hl.2]

theorem paths_updateActiveContext (e : Editor) (l : List File) :
    (updateActiveContext e l).map File.path = l.map File.path := by
  unfold updateActiveContext
  cases h : l.find? (fun f => f.path == e.path) with
  | none => rfl
  | some f =>
    cases hf : f.isActive
    · simp [hf]
    · simp only [hf, if_true]
      exact map_modifyFirst (fun g => g.path == e.path)
        (fun g => { g with cursor := editorCursor e,
                           selectedText := truncateSelected e.selText })
        File.path (fun x => rfl) l

theorem paths_addOrMoveToFront (e : Editor) (now : Nat) (l : List File)
    (hnd : (l.map File.path).Nodup) (hlen : l.length ≤ MAX_FILES) :
    (addOrMoveToFront e now l).map File.path = mruStep (l.map File.path) e.path := by
  unfold addOrMoveToFront
  rw [paths_updateActiveContext]
  unfold capAtMaxFiles
  have h1 : (modifyFirst (fun f => f.isActive) clearFile l).map File.path
      = l.map File.path :=
    map_modifyFirst (fun f => f.isActive) clearFile File.path (fun x => rfl) l
  set L1 := modifyFirst (fun f => f.isActive) clearFile l with hL1
  set L2 := L1.eraseP (fun f => f.path == e.path) with hL2
  have h2 : L2.map File.path = (l.map File.path).filter (fun q => q != e.path) := by
    rw [hL2, map_path_eraseP, h1, eraseP_beq_eq_filter_of_nodup _ _ hnd]
  have hlen2 : L2.length ≤ MAX_FILES := by
    have : L2.length ≤ L1.length := (List.eraseP_sublist L1).length_le
    rw [hL1, length_modifyFirst] at this
    omega
  by_cases hc : MAX_FILES < (newFileEntry e now :: L2).length
  · rw [if_pos hc]
    have hlen3 : (newFileEntry e now :: L2).length = MAX_FILES + 1 := by
      simp only [List.length_cons] at hc ⊢
      omega
    rw [List.dropLast_eq_take, hlen3]
    simp only [Nat.add_sub_cancel]
    rw [List.map_take, List.map_cons, h2]
    simp [mruStep, newFileEntry]
  · rw [if_neg hc]
    rw [List.map_cons, h2]
    have hlen3 :
        (e.path :: (l.map File.path).filter (fun q => q != e.path)).length
          ≤ MAX_FILES := by
      have hL := congrArg List.length h2
      simp only [List.length_map] at hL
      simp only [List.length_cons] at hc ⊢
      omega
    rw [mruStep, List.take_of_length_le hlen3]
    simp [newFileEntry]

theorem length_mruStep (l : List String) (p : String) :
    (mruStep l p).length ≤ MAX_FILES := by
  simp only [mruStep]
  exact List.length_take_le _ _

theorem nodup_mruStep (l : List String) (p : String) (h : l.Nodup) :
    (mruStep l p).Nodup := by
  apply List.Nodup.sublist (List.take_sublist _ _)
  refine List.nodup_cons.mpr ⟨?_, h.filter _⟩
  intro hmem
  rcases List.mem_filter.mp hmem with ⟨_, hne⟩
  simp at hne

theorem mruFold_inv (paths : List String) :
    ∀ L : List String, L.Nodup → L.length ≤ MAX_FILES →
      (paths.foldl mruStep L).Nodup ∧ (paths.foldl mruStep L).length ≤ MAX_FILES := by
  induction paths with
  | nil => exact fun L h1 h2 => ⟨h1, h2⟩
  | cons p rest ih =>
    intro L h1 _
    simp only [List.foldl_cons]
    exact ih (mruStep L p) (nodup_mruStep L p h1) (length_mruStep L p)

theorem runActivations_paths_aux (evs : List (Editor × Nat)) :
    ∀ l : List File, (l.map File.path).Nodup → l.length ≤ MAX_FILES →
      (evs.foldl (fun fs en => addOrMoveToFront en.1 en.2 fs) l).map File.path
        = (evs.map (fun en => en.1.path)).foldl mruStep (l.map File.path) := by
  induction evs with
  | nil => intro l _ _; rfl
  | cons ev rest ih =>
    intro l hnd hlen
    simp only [List.foldl_cons, List.map_cons]
    have hstep := paths_addOrMoveToFront ev.1 ev.2 l hnd hlen
    have hnd2 : ((addOrMoveToFront ev.1 ev.2 l).map File.path).Nodup := by
      rw [hstep]; exact nodup_mruStep _ _ hnd
    have hlen2 : (addOrMoveToFront ev.1 ev.2 l).length ≤ MAX_FILES := by
      have h := congrArg List.length hstep
      simp only [List.length_map] at h
      rw [h]; exact length_mruStep _ _
    rw [ih (addOrMoveToFront ev.1 ev.2 l) hnd2 hlen2, hstep]

theorem runActivations_paths (evs : List (Editor × Nat)) :
    (runActivations evs).map File.path
      = mruSpecList (evs.map (fun en => en.1.path)) :=
  runActivations_paths_aux evs [] (by simp) (by simp [MAX_FILES])

theorem head?_mruStep (L : List String) (p : String) :
    (mruStep L p).head? = some p := by
  rw [mruStep, show MAX_FILES = 9 + 1 from rfl, List.take_succ_cons]
  rfl

/-! The active-flag and selection invariants (claims C4 and C10). -/

theorem truncateSelected_ne_empty (s : String) : truncateSelected s ≠ some "" := by
  unfold truncateSelected
  by_cases h : s = ""
  · simp [h]
  · by_cases h2 : MAX_SELECTED_TEXT_LENGTH < s.length
    · rw [if_neg h, if_pos h2]
      intro hc
      rw [Option.some.injEq] at hc
      have hd := congrArg String.data hc
      simp only [String.data] at hd
      rcases List.append_eq_nil.mp hd with ⟨_, hmark⟩
      have : TRUNCATION_MARKER.data ≠ [] := by decide
      exact this hmark
    · rw [if_neg h, if_neg h2]
      intro hc
      rw [Option.some.injEq] at hc
      exact h hc

theorem deactivate_all (l : List File) (hinv : OfmInv l) :
    ∀ f ∈ modifyFirst (fun f => f.isActive) clearFile l,
      f.isActive = false ∧ fileClearedProp f := by
  induction l with
  | nil => intro f hf; simp [modifyFirst] at hf
  | cons a as ih =>
    obtain ⟨hcount, hclear⟩ := hinv
    intro f hf
    cases ha : a.isActive with
    | true =>
      simp only [modifyFirst, ha, if_true] at hf
      rcases List.mem_cons.mp hf with hf | hf
      · subst hf
        exact ⟨rfl, rfl, rfl⟩
      · -- the head was active, so the tail has no active entry at all
        have hzero : activeCount as = 0 := by
          have h1 : activeCount (a :: as) = activeCount as + 1 := by
            simp [activeCount, List.filter_cons, ha]
          omega
        have hinact : f.isActive = false := by
          rw [activeCount, List.length_eq_zero] at hzero
          have := List.filter_eq_nil_iff.mp hzero f hf
          simpa using this
        exact ⟨hinact, hclear f (List.mem_cons_of_mem a hf) hinact⟩
    | false =>
      simp only [modifyFirst, ha, if_false] at hf
      rcases List.mem_cons.mp hf with hf | hf
      · rw [hf]
        exact ⟨ha, hclear a (List.mem_cons_self a as) ha⟩
      · refine ih ⟨?_, fun g hg => hclear g (List.mem_cons_of_mem a hg)⟩ f hf
        simpa [activeCount, List.filter_cons, ha] using hcount

theorem addOrMoveToFront_front (e : Editor) (now : Nat) (l : List File)
    (hinv : OfmInv l) :
    ∃ rest, addOrMoveToFront e now l
        = { path := e.path, timestamp := now, isActive := true,
            cursor := editorCursor e,
            selectedText := truncateSelected e.selText } :: rest ∧
      ∀ f ∈ rest, f.isActive = false ∧ fileClearedProp f := by
  have hall := deactivate_all l hinv
  have hall2 : ∀ f ∈ (modifyFirst (fun f => f.isActive) clearFile l).eraseP
      (fun f => f.path == e.path), f.isActive = false ∧ fileClearedProp f := by
    intro f hf
    exact hall f ((List.eraseP_sublist _).subset hf)
  obtain ⟨t, hcap, hsub⟩ := cap_cons (newFileEntry e now)
    ((modifyFirst (fun f => f.isActive) clearFile l).eraseP
      (fun f => f.path == e.path))
  rw [show addOrMoveToFront e now l
      = updateActiveContext e (capAtMaxFiles (newFileEntry e now ::
          (modifyFirst (fun f => f.isActive) clearFile l).eraseP
            (fun f => f.path == e.path))) from rfl, hcap]
  refine ⟨t, ?_, fun f hf => hall2 f (hsub f hf)⟩
  unfold updateActiveContext
  rw [List.find?_cons_of_pos _ (by simp [newFileEntry])]
  simp only [newFileEntry, if_true]
  simp [modifyFirst, newFileEntry]

theorem goodState_sublist {l m : List File} (h : List.Sublist l m)
    (hm : GoodState m) : GoodState l := by
  obtain ⟨⟨hcount, hclear⟩, hsel⟩ := hm
  refine ⟨⟨?_, fun f hf => hclear f (h.subset hf)⟩,
    fun f hf => hsel f (h.subset hf)⟩
  exact le_trans (h.filter _).length_le hcount

theorem goodState_append_update (l1 l2 : List File) (f g : File)
    (hact : g.isActive = f.isActive)
    (hgood : GoodState (l1 ++ f :: l2))
    (hgsel : g.selectedText ≠ some "")
    (hgclear : g.isActive = false → fileClearedProp g) :
    GoodState (l1 ++ g :: l2) := by
  obtain ⟨⟨hcount, hclear⟩, hsel⟩ := hgood
  refine ⟨⟨?_, ?_⟩, ?_⟩
  · have heq : activeCount (l1 ++ g :: l2) = activeCount (l1 ++ f :: l2) := by
      simp only [activeCount, List.filter_append, List.length_append,
        List.filter_cons, hact]
      cases f.isActive <;> simp
    rw [heq]
    exact hcount
  · intro x hx hinact
    rcases List.mem_append.mp hx with hx | hx
    · exact hclear x (List.mem_append_left _ hx) hinact
    · rcases List.mem_cons.mp hx with hx | hx
      · exact hx ▸ hgclear (hx ▸ hinact)
      · exact hclear x (List.mem_append_right _ (List.mem_cons_of_mem f hx)) hinact
  · intro x hx
    rcases List.mem_append.mp hx with hx | hx
    · exact hsel x (List.mem_append_left _ hx)
    · rcases List.mem_cons.mp hx with hx | hx
      · exact hx ▸ hgsel
      · exact hsel x (List.mem_append_right _ (List.mem_cons_of_mem f hx))

theorem goodState_updateActiveContext (e : Editor) (l : List File)
    (h : GoodState l) : GoodState (updateActiveContext e l) := by
  unfold updateActiveContext
  cases hf : l.find? (fun f => f.path == e.path) with
  | none => exact h
  | some f =>
    cases ha : f.isActive with
    | false => simpa [ha] using h
    | true =>
      simp only [ha, if_true]
      obtain ⟨l1, l2, hl, _, hmod⟩ := find?_split hf
      rw [hmod]
      exact goodState_append_update l1 l2 f _ rfl (hl ▸ h)
        (truncateSelected_ne_empty e.selText) (by simp [ha])

theorem goodState_renameEntry (o n : String) (l : List File)
    (h : GoodState l) : GoodState (renameEntry o n l) := by
  unfold renameEntry
  cases hf : l.find? (fun f => f.path == o) with
  | none =>
    rw [modifyFirst_of_forall_neg]
    · exact h
    · intro x hx
      have := List.find?_eq_none.mp hf x hx
      simpa using this
  | some f =>
    obtain ⟨l1, l2, hl, _, hmod⟩ := find?_split hf
    rw [hmod]
    have hmem : f ∈ l := List.mem_of_find?_eq_some hf
    refine goodState_append_update l1 l2 f _ rfl (hl ▸ h) ?_ ?_
    · exact (hl ▸ h).2 f (by simp)
    · intro hinact
      exact (hl ▸ h).1.2 f (by simp) hinact

theorem goodState_applyEvent (l : List File) (ev : OfmEvent)
    (h : GoodState l) : GoodState (applyEvent l ev) := by
  cases ev with
  | activate e now =>
    obtain ⟨rest, hres, hrest⟩ := addOrMoveToFront_front e now l h.1
    show GoodState (addOrMoveToFront e now l)
    rw [hres]
    refine ⟨⟨?_, ?_⟩, ?_⟩
    · simp only [activeCount, List.filter_cons, cond_true, List.length_cons]
      have hzero : (rest.filter fun f => f.isActive) = [] :=
        List.filter_eq_nil_iff.mpr fun f hf => by simp [(hrest f hf).1]
      simp [hzero]
    · intro f hf hinact
      rcases List.mem_cons.mp hf with hf | hf
      · subst hf; simp at hinact
      · exact (hrest f hf).2
    · intro f hf
      rcases List.mem_cons.mp hf with hf | hf
      · subst hf
        exact truncateSelected_ne_empty e.selText
      · rw [(hrest f hf).2.2]
        simp
  | selectionChange e => exact goodState_updateActiveContext e l h
  | closeDoc p => exact goodState_sublist (List.eraseP_sublist l) h
  | deleteFile p => exact goodState_sublist (List.eraseP_sublist l) h
  | rename o n => exact goodState_renameEntry o n l h
  | renameToNonFile o => exact goodState_sublist (List.eraseP_sublist l) h

theorem goodState_foldl (evs : List OfmEvent) :
    ∀ l : List File, GoodState l → GoodState (evs.foldl applyEvent l) := by
  induction evs with
  | nil => exact fun l h => h
  | cons ev rest ih =>
    intro l h
    exact ih (applyEvent l ev) (goodState_applyEvent l ev h)

theorem goodState_runEvents (evs : List OfmEvent) : GoodState (runEvents evs) :=
  goodState_foldl evs [] (by constructor <;> simp [OfmInv, activeCount, inactiveCleared])

/-! Selection updates on the active file (claims C5 and C10). -/

theorem updateActiveContext_find (e : Editor) (l : List File) (f : File)
    (hf : l.find? (fun g => g.path == e.path) = some f)
    (ha : f.isActive = true) :
    (updateActiveContext e l).find? (fun g => g.path == e.path)
      = some { f with cursor := editorCursor e,
                      selectedText := truncateSelected e.selText } := by
  have hpf : (f.path == e.path) = true := by
    have h0 := List.find?_some hf
    exact h0
  obtain ⟨l1, l2, hl, hneg, hmod⟩ := find?_split hf
  unfold updateActiveContext
  rw [hf]
  dsimp only
  rw [if_pos ha, hmod]
  exact find?_append_cons hneg (by exact hpf) l2

/-! Heap-model lemmas: what a mutation does to records visible through an
earlier snapshot (claim C9). -/

theorem observeRef_removeRef (p : String) (s : RefState) (ids : List Nat) :
    observeRef ids (removeRef p s) = observeRef ids s := rfl

theorem addOrMoveToFrontRef_clears_shared (e : Editor) (now : Nat)
    (s : RefState) (i : Nat) (hwf : RefWF s)
    (hfind : s.openFiles.find? (fun j => (s.heap j).isActive) = some i) :
    (addOrMoveToFrontRef e now s).heap i = clearFile (s.heap i) := by
  have hi_mem : i ∈ s.openFiles := List.mem_of_find?_eq_some hfind
  have hi_lt : i < s.nextId := hwf i hi_mem
  have hi_ne : i ≠ s.nextId := Nat.ne_of_lt hi_lt
  have hdeact : deactivateRef s
      = { s with heap := setHeap s.heap i (clearFile (s.heap i)) } := by
    unfold deactivateRef
    rw [hfind]
  obtain ⟨t, hcap, _⟩ := cap_cons s.nextId
    (s.openFiles.eraseP
      (fun j => ((setHeap s.heap i (clearFile (s.heap i))) j).path == e.path))
  rw [show addOrMoveToFrontRef e now s
      = updateActiveContextRef e
          { heap := setHeap (setHeap s.heap i (clearFile (s.heap i))) s.nextId
              (newFileEntry e now),
            nextId := s.nextId + 1,
            openFiles := capAtMaxFiles (s.nextId ::
              s.openFiles.eraseP
                (fun j => ((setHeap s.heap i (clearFile (s.heap i))) j).path
                  == e.path)) } from by
    unfold addOrMoveToFrontRef
    rw [hdeact]]
  rw [hcap]
  unfold updateActiveContextRef
  rw [List.find?_cons_of_pos _ (by simp [setHeap, newFileEntry])]
  simp [setHeap, newFileEntry, hi_ne]

/-! JS `Map` behavior of the diff registry (claims C6 and C7). -/

theorem getA_setA_self (k : DiffUri) (v : α) (l : List (DiffUri × α)) :
    getA k (setA k v l) = some v := by
  induction l with
  | nil => simp [setA, getA]
  | cons kv rest ih =>
    obtain ⟨k1, v1⟩ := kv
    by_cases h : k1 = k
    · simp [setA, getA, h]
    · simp [setA, getA, h, ih]

theorem getA_setA_ne (k k2 : DiffUri) (hne : k2 ≠ k) (v : α)
    (l : List (DiffUri × α)) : getA k (setA k2 v l) = getA k l := by
  induction l with
  | nil => simp [setA, getA, hne]
  | cons kv rest ih =>
    obtain ⟨k1, v1⟩ := kv
    by_cases h : k1 = k2
    · subst h
      simp [setA, getA, hne, ih]
    · by_cases h2 : k1 = k
      · have hkk2 : ¬ k = k2 := fun hc => hne (hc ▸ rfl)
        simp [setA, getA, h, h2, hkk2]
      · simp [setA, getA, h, h2, ih]

theorem getA_none_of_not_mem_keys (k : DiffUri) (l : List (DiffUri × α))
    (h : k ∉ l.map Prod.fst) : getA k l = none := by
  induction l with
  | nil => rfl
  | cons kv rest ih =>
    obtain ⟨k1, v1⟩ := kv
    simp only [List.map_cons, List.mem_cons] at h
    push_neg at h
    have hne : ¬ k1 = k := fun hc => h.1 hc.symm
    simp [getA, hne, ih h.2]

theorem getA_delA_self (k : DiffUri) (l : List (DiffUri × α))
    (h : (l.map Prod.fst).Nodup) : getA k (delA k l) = none := by
  induction l with
  | nil => rfl
  | cons kv rest ih =>
    obtain ⟨k1, v1⟩ := kv
    rw [List.map_cons, List.nodup_cons] at h
    by_cases hk : k1 = k
    · subst hk
      rw [delA, if_pos rfl]
      exact getA_none_of_not_mem_keys k1 rest h.1
    · rw [delA, if_neg hk, getA, if_neg hk]
      exact ih h.2

theorem string_eq_of_data_eq {a b : String} (h : a.data = b.data) : a = b := by
  cases a with
  | mk d1 =>
    cases b with
    | mk d2 =>
      have h2 : d1 = d2 := h
      rw [h2]

theorem mkRightDocUri_ne_of_rand_ne (p r1 r2 : String) (h : r1 ≠ r2) :
    mkRightDocUri p r1 ≠ mkRightDocUri p r2 := by
  intro hc
  apply h
  have hq : "rand=" ++ r1 = "rand=" ++ r2 := congrArg DiffUri.query hc
  have hd := congrArg String.data hq
  rw [String.data_append, String.data_append] at hd
  exact string_eq_of_data_eq (List.append_cancel_left hd)

/-! The Bearer middleware's `split(' ')` (claim C1). -/

theorem splitOnChar_ne_nil (c : Char) (l : List Char) : splitOnChar c l ≠ [] := by
  cases l with
  | nil => simp [splitOnChar]
  | cons x xs =>
    by_cases h : x = c
    · simp [splitOnChar, h]
    · simp only [splitOnChar, if_neg h]
      cases splitOnChar c xs <;> simp

theorem splitOnChar_singleton (c : Char) :
    ∀ l b, splitOnChar c l = [b] → l = b := by
  intro l
  induction l with
  | nil =>
    intro b h
    simp only [splitOnChar, List.cons.injEq, and_true] at h
    exact h
  | cons x xs ih =>
    intro b h
    by_cases hx : x = c
    · rw [splitOnChar, if_pos hx] at h
      rw [List.cons.injEq] at h
      exact absurd h.2 (splitOnChar_ne_nil c xs)
    · rw [splitOnChar, if_neg hx] at h
      cases hsp : splitOnChar c xs with
      | nil => exact absurd hsp (splitOnChar_ne_nil c xs)
      | cons y ys =>
        rw [hsp] at h
        rw [List.cons.injEq] at h
        obtain ⟨hb, hys⟩ := h
        subst hys
        have hxs : xs = y := ih y (by rw [hsp])
        rw [← hb, hxs]

theorem splitOnChar_pair (c : Char) :
    ∀ l a b, splitOnChar c l = [a, b] → l = a ++ c :: b := by
  intro l
  induction l with
  | nil => intro a b h; simp [splitOnChar] at h
  | cons x xs ih =>
    intro a b h
    by_cases hx : x = c
    · rw [splitOnChar, if_pos hx] at h
      rw [List.cons.injEq] at h
      obtain ⟨ha, hrest⟩ := h
      have hxs : xs = b := splitOnChar_singleton c xs b hrest
      rw [← ha, hxs, hx]
      rfl
    · rw [splitOnChar, if_neg hx] at h
      cases hsp : splitOnChar c xs with
      | nil => exact absurd hsp (splitOnChar_ne_nil c xs)
      | cons y ys =>
        rw [hsp] at h
        rw [List.cons.injEq] at h
        obtain ⟨ha, hys⟩ := h
        have hxs : xs = y ++ c :: b := by
          apply ih
          rw [hsp, hys]
        rw [← ha, hxs]
        rfl

theorem jsSplit_pair (s : String) (c : Char) (a b : String)
    (h : jsSplit s c = [a, b]) : s.data = a.data ++ c :: b.data := by
  unfold jsSplit at h
  cases hsp : splitOnChar c s.data with
  | nil => exact absurd hsp (splitOnChar_ne_nil c s.data)
  | cons y ys =>
    rw [hsp] at h
    cases ys with
    | nil => simp at h
    | cons z zs =>
      cases zs with
      | nil =>
        simp only [List.map_cons, List.map_nil, List.cons.injEq, and_true] at h
        obtain ⟨hy, hz⟩ := h
        have hdata : s.data = y ++ c :: z := splitOnChar_pair c s.data y z hsp
        rw [hdata, ← hy, ← hz]
      | cons w ws => simp at h

/-- If the Bearer middleware lets a request through, the Authorization header
was literally `Bearer <authToken>`. -/
theorem checkAccess_pass_auth (st : ServerState) (req : HttpRequest)
    (authHeader : String) (hauth : req.authorization = some authHeader)
    (hpass : checkAccess st req = none) :
    authHeader = "Bearer " ++ st.authToken := by
  unfold checkAccess at hpass
  by_cases ho : req.origin.isSome
  · rw [if_pos ho] at hpass; exact absurd hpass (by simp)
  · rw [if_neg ho] at hpass
    by_cases hh : ¬ (allowedHosts st).contains req.host
    · rw [if_pos hh] at hpass; exact absurd hpass (by simp)
    · rw [if_neg hh, hauth] at hpass
      dsimp only at hpass
      by_cases h1 : (jsSplit authHeader ' ').length ≠ 2
          ∨ (jsSplit authHeader ' ').get? 0 ≠ some "Bearer"
      · rw [if_pos h1] at hpass; exact absurd hpass (by simp)
      · rw [if_neg h1] at hpass
        by_cases h2 : (jsSplit authHeader ' ').get? 1 ≠ some st.authToken
        · rw [if_pos h2] at hpass; exact absurd hpass (by simp)
        · push_neg at h1 h2
          obtain ⟨hlen, hhead⟩ := h1
          obtain ⟨a, b, hab⟩ := List.length_eq_two.mp hlen
          rw [hab] at hhead h2
          simp only [List.get?] at hhead h2
          rw [Option.some.injEq] at hhead h2
          have hdata : authHeader.data = a.data ++ ' ' :: b.data :=
            jsSplit_pair authHeader ' ' a b hab
          apply string_eq_of_data_eq
          rw [hdata, hhead, h2, String.data_append,
            show ("Bearer " : String).data = ("Bearer" : String).data ++ [' ']
              from by decide,
            List.append_assoc]
          rfl

theorem checkAccess_auth_fail (st : ServerState) (req : HttpRequest)
    (horigin : req.origin = none)
    (hhost : (allowedHosts st).contains req.host = true)
    (hauth : req.authorization ≠ some ("Bearer " ++ st.authToken)) :
    checkAccess st req = some 401 := by
  unfold checkAccess
  rw [horigin]
  rw [if_neg (by simp)]
  rw [if_neg (by simpa using hhost)]
  cases hah : req.authorization with
  | none => rfl
  | some h =>
    dsimp only
    by_cases h1 : (jsSplit h ' ').length ≠ 2
        ∨ (jsSplit h ' ').get? 0 ≠ some "Bearer"
    · rw [if_pos h1]
    · rw [if_neg h1]
      by_cases h2 : (jsSplit h ' ').get? 1 ≠ some st.authToken
      · rw [if_pos h2]
      · exfalso
        have hpass : checkAccess st req = none := by
          unfold checkAccess
          rw [horigin, if_neg (by simp), if_neg (by simpa using hhost), hah]
          dsimp only
          rw [if_neg h1, if_neg h2]
        have heq := checkAccess_pass_auth st req h hah hpass
        exact hauth (by rw [hah, heq])

/-- C1 (amended): a POST /mcp request that passes the Origin and Host
middleware but whose Authorization header is missing, malformed, or carries
a token other than the per-process random token — equivalently, is not
literally `Bearer <authToken>` — is rejected with 401 and nothing else: the
request is never forwarded to a transport (so no tool logic runs) and the
session transport table is unchanged, even if the request carries a valid
session id. -/
theorem c1_amended_auth_reject (st : ServerState) (req : HttpRequest)
    (newSid : String) (horigin : req.origin = none)
    (hhost : (allowedHosts st).contains req.host = true)
    (hauth : req.authorization ≠ some ("Bearer " ++ st.authToken)) :
    handlePostMcp st req newSid = (.rejected 401 none, st.sessions) := by
  unfold handlePostMcp
  rw [checkAccess_auth_fail st req horigin hhost hauth]

theorem c1_amended_auth_reject_witness :
    handlePostMcp { authToken := "tok123", port := 3000, sessions := ["sess1"] }
      { origin := none, host := "localhost:3000", authorization := none,
        sessionId := some "sess1", initRequest := false } "newsid"
      = (.rejected 401 none, ["sess1"]) :=
  c1_amended_auth_reject
    { authToken := "tok123", port := 3000, sessions := ["sess1"] }
    { origin := none, host := "localhost:3000", authorization := none,
      sessionId := some "sess1", initRequest := false }
    "newsid" rfl (by decide) (by decide)

/-- C1 is false as stated: this request's Authorization header is missing
and its session id is valid, yet the server responds 403 (the CORS origin
middleware rejects it first), not 401. -/
theorem c1_counterexample :
    (handlePostMcp
        { authToken := "tok123", port := 3000, sessions := ["sess1"] }
        { origin := some "http://evil.example", host := "localhost:3000",
          authorization := none, sessionId := some "sess1",
          initRequest := false } "newsid").1
      = .rejected 403 none ∧
    ∀ c : Option Int,
      (handlePostMcp
          { authToken := "tok123", port := 3000, sessions := ["sess1"] }
          { origin := some "http://evil.example", host := "localhost:3000",
            authorization := none, sessionId := some "sess1",
            initRequest := false } "newsid").1
        ≠ .rejected 401 c := by
  refine ⟨by decide, ?_⟩
  intro c hc
  rw [show (handlePostMcp
      { authToken := "tok123", port := 3000, sessions := ["sess1"] }
      { origin := some "http://evil.example", host := "localhost:3000",
        authorization := none, sessionId := some "sess1",
        initRequest := false } "newsid").1
      = McpOutcome.rejected 403 none from by decide] at hc
  injection hc with h1 h2
  exact absurd h1 (by decide)

/-- C2: a POST /mcp request that passes access control but has no known
session id (missing, empty, or unknown) and is not an initialization request
gets HTTP 400 with the JSON-RPC error code -32000, and the session transport
table is unchanged: no session is created. -/
theorem c2_protocol_error_400 (st : ServerState) (req : HttpRequest)
    (newSid : String) (hacc : checkAccess st req = none)
    (hsess : ¬ (sidTruthy req.sessionId = true
       ∧ st.sessions.contains (req.sessionId.getD "") = true))
    (hinit : req.initRequest = false) :
    handlePostMcp st req newSid
      = (.rejected 400 (some (-32000)), st.sessions) := by
  unfold handlePostMcp
  rw [hacc]
  dsimp only
  rw [if_neg (by simpa [Bool.and_eq_true] using hsess)]
  rw [if_neg (by simp [hinit])]

theorem c2_protocol_error_400_witness :
    handlePostMcp { authToken := "tok", port := 3000, sessions := ["live"] }
      { origin := none, host := "127.0.0.1:3000",
        authorization := some "Bearer tok", sessionId := some "ghost",
        initRequest := false } "n"
      = (.rejected 400 (some (-32000)), ["live"]) :=
  c2_protocol_error_400 { authToken := "tok", port := 3000, sessions := ["live"] }
    { origin := none, host := "127.0.0.1:3000",
      authorization := some "Bearer tok", sessionId := some "ghost",
      initRequest := false } "n" (by decide) (by decide) rfl

/-- C3: for every sequence of file activations applied to the initially
empty aggregator, the tracked list has at most MAX_FILES (10) entries, has
no duplicate paths (re-activation moves an entry instead of duplicating it),
equals the spec-side MRU list (most-recently-activated first, tail dropped
on overflow), and its front entry is always the most recently activated
path. -/
theorem c3_mru_bounded_nodup_ordered (evs : List (Editor × Nat)) :
    (runActivations evs).length ≤ MAX_FILES ∧
    ((runActivations evs).map File.path).Nodup ∧
    (runActivations evs).map File.path
      = mruSpecList (evs.map (fun en => en.1.path)) ∧
    ∀ (pre : List (Editor × Nat)) (e : Editor) (now : Nat),
      ((runActivations (pre ++ [(e, now)])).map File.path).head? = some e.path := by
  have hpaths := runActivations_paths evs
  have hinv := mruFold_inv (evs.map (fun en => en.1.path)) [] (by simp)
    (by simp [MAX_FILES])
  refine ⟨?_, ?_, hpaths, ?_⟩
  · have hlen := congrArg List.length hpaths
    simp only [List.length_map] at hlen
    rw [hlen]
    exact hinv.2
  · rw [hpaths]
    exact hinv.1
  · intro pre e now
    rw [runActivations_paths]
    simp only [List.map_append, List.map_cons, List.map_nil]
    rw [mruSpecList, List.foldl_append]
    simp only [List.foldl_cons, List.foldl_nil]
    exact head?_mruStep _ _

/-- C4: after any sequence of aggregator events at most one tracked file has
the active flag and every inactive entry has cursor and selection cleared;
and on any activation over a list satisfying the invariant, every entry
other than the freshly inserted front entry (which has the activated path
and isActive = true) ends up inactive with cursor and selected text
cleared. -/
theorem c4_single_active_cleared :
    (∀ evs : List OfmEvent,
       activeCount (runEvents evs) ≤ 1 ∧ inactiveCleared (runEvents evs)) ∧
    (∀ (e : Editor) (now : Nat) (l : List File), OfmInv l →
       ∃ rest, addOrMoveToFront e now l
           = { path := e.path, timestamp := now, isActive := true,
               cursor := editorCursor e,
               selectedText := truncateSelected e.selText } :: rest ∧
         ∀ f ∈ rest, f.isActive = false ∧ f.cursor = none
           ∧ f.selectedText = none) := by
  constructor
  · intro evs
    exact (goodState_runEvents evs).1
  · intro e now l hinv
    obtain ⟨rest, hres, hrest⟩ := addOrMoveToFront_front e now l hinv
    exact ⟨rest, hres,
      fun f hf => ⟨(hrest f hf).1, (hrest f hf).2.1, (hrest f hf).2.2⟩⟩

theorem c4_single_active_cleared_witness :
    ∃ rest, addOrMoveToFront
        { path := "b", selLine := 2, selCharacter := 3, selText := "hi" } 7
        [{ path := "a", timestamp := 0, isActive := true,
           cursor := some { line := 1, character := 0 },
           selectedText := some "x" }]
        = { path := "b", timestamp := 7, isActive := true,
            cursor := editorCursor
              { path := "b", selLine := 2, selCharacter := 3, selText := "hi" },
            selectedText := truncateSelected "hi" } :: rest ∧
      ∀ f ∈ rest, f.isActive = false ∧ f.cursor = none
        ∧ f.selectedText = none :=
  c4_single_active_cleared.2
    { path := "b", selLine := 2, selCharacter := 3, selText := "hi" } 7
    [{ path := "a", timestamp := 0, isActive := true,
       cursor := some { line := 1, character := 0 },
       selectedText := some "x" }]
    (by decide)

/-- C5 is false as stated at selection length 0: a selection change with
empty selected text on the active file stores an absent selectedText
(`none`), not the selection "" unchanged. -/
theorem c5_counterexample :
    (updateActiveContext
        { path := "a", selLine := 0, selCharacter := 0, selText := "" }
        [{ path := "a", timestamp := 0, isActive := true, cursor := none,
           selectedText := none }]).map File.selectedText = [none] ∧
    (updateActiveContext
        { path := "a", selLine := 0, selCharacter := 0, selText := "" }
        [{ path := "a", timestamp := 0, isActive := true, cursor := none,
           selectedText := none }]).map File.selectedText ≠ [some ""] := by
  exact ⟨by decide, by decide⟩

/-- C5 (amended): on a selection change on the currently active tracked file
the stored cursor becomes (editor line + 1, editor column); the stored
selected text is the selection unchanged when 0 < L ≤ 16384, absent when
L = 0, and when L > 16384 it is exactly the first 16384 characters followed
by the fixed truncation marker, of total length 16384 + 15 > 16384. -/
theorem c5_amended_cursor_truncation (e : Editor) (l : List File) (f : File)
    (hf : l.find? (fun g => g.path == e.path) = some f)
    (ha : f.isActive = true) :
    ∃ g, (updateActiveContext e l).find? (fun g2 => g2.path == e.path) = some g
      ∧ g.cursor = some { line := e.selLine + 1, character := e.selCharacter }
      ∧ (e.selText = "" → g.selectedText = none)
      ∧ (e.selText ≠ "" → e.selText.length ≤ MAX_SELECTED_TEXT_LENGTH →
          g.selectedText = some e.selText)
      ∧ (MAX_SELECTED_TEXT_LENGTH < e.selText.length →
          g.selectedText = some (String.mk
            (e.selText.data.take MAX_SELECTED_TEXT_LENGTH
              ++ TRUNCATION_MARKER.data))
          ∧ (String.mk (e.selText.data.take MAX_SELECTED_TEXT_LENGTH
              ++ TRUNCATION_MARKER.data)).length
            = MAX_SELECTED_TEXT_LENGTH + TRUNCATION_MARKER.length
          ∧ MAX_SELECTED_TEXT_LENGTH
            < (String.mk (e.selText.data.take MAX_SELECTED_TEXT_LENGTH
                ++ TRUNCATION_MARKER.data)).length) := by
  refine ⟨_, updateActiveContext_find e l f hf ha, rfl, ?_, ?_, ?_⟩
  · intro h0
    show truncateSelected e.selText = none
    unfold truncateSelected
    rw [if_pos h0]
  · intro hne hle
    show truncateSelected e.selText = some e.selText
    unfold truncateSelected
    rw [if_neg hne, if_neg (Nat.not_lt.mpr hle)]
  · intro hgt
    have hne : e.selText ≠ "" := by
      intro h0
      rw [h0] at hgt
      exact absurd hgt (by decide)
    have hgt2 : MAX_SELECTED_TEXT_LENGTH ≤ e.selText.data.length :=
      Nat.le_of_lt hgt
    refine ⟨?_, ?_, ?_⟩
    · show truncateSelected e.selText = _
      unfold truncateSelected
      rw [if_neg hne, if_pos hgt]
    · show (e.selText.data.take MAX_SELECTED_TEXT_LENGTH
          ++ TRUNCATION_MARKER.data).length
        = MAX_SELECTED_TEXT_LENGTH + TRUNCATION_MARKER.length
      rw [List.length_append, List.length_take, Nat.min_eq_left hgt2]
      rfl
    · show MAX_SELECTED_TEXT_LENGTH
        < (e.selText.data.take MAX_SELECTED_TEXT_LENGTH
            ++ TRUNCATION_MARKER.data).length
      rw [List.length_append, List.length_take, Nat.min_eq_left hgt2]
      have hmark : 0 < TRUNCATION_MARKER.data.length := by decide
      omega

theorem c5_amended_cursor_truncation_witness :
    ∃ g, (updateActiveContext
        { path := "a", selLine := 4, selCharacter := 2, selText := "xyz" }
        [{ path := "a", timestamp := 0, isActive := true, cursor := none,
           selectedText := none }]).find? (fun g2 => g2.path == "a") = some g
      ∧ g.cursor = some { line := 4 + 1, character := 2 }
      ∧ (("xyz" : String) = "" → g.selectedText = none)
      ∧ (("xyz" : String) ≠ "" →
          ("xyz" : String).length ≤ MAX_SELECTED_TEXT_LENGTH →
          g.selectedText = some "xyz")
      ∧ (MAX_SELECTED_TEXT_LENGTH < ("xyz" : String).length →
          g.selectedText = some (String.mk
            (("xyz" : String).data.take MAX_SELECTED_TEXT_LENGTH
              ++ TRUNCATION_MARKER.data))
          ∧ (String.mk (("xyz" : String).data.take MAX_SELECTED_TEXT_LENGTH
              ++ TRUNCATION_MARKER.data)).length
            = MAX_SELECTED_TEXT_LENGTH + TRUNCATION_MARKER.length
          ∧ MAX_SELECTED_TEXT_LENGTH
            < (String.mk (("xyz" : String).data.take MAX_SELECTED_TEXT_LENGTH
                ++ TRUNCATION_MARKER.data)).length) :=
  c5_amended_cursor_truncation
    { path := "a", selLine := 4, selCharacter := 2, selText := "xyz" }
    [{ path := "a", timestamp := 0, isActive := true, cursor := none,
       selectedText := none }]
    { path := "a", timestamp := 0, isActive := true, cursor := none,
      selectedText := none }
    (by decide) rfl

/-- C6: two `showDiff` invocations for the same file path with distinct
random query draws generate distinct right-document URIs and leave two
independent DiffView entries simultaneously registered — the second open
neither replaces nor closes the first. -/
theorem c6_two_opens_two_diffviews (s : DiffState) (p c1 c2 r1 r2 : String)
    (hr : r1 ≠ r2) :
    mkRightDocUri p r1 ≠ mkRightDocUri p r2 ∧
    getA (mkRightDocUri p r1)
        (showDiff p c2 r2 (showDiff p c1 r1 s)).diffDocuments
      = some { originalFilePath := p, newContent := c1,
               rightDocUri := mkRightDocUri p r1 } ∧
    getA (mkRightDocUri p r2)
        (showDiff p c2 r2 (showDiff p c1 r1 s)).diffDocuments
      = some { originalFilePath := p, newContent := c2,
               rightDocUri := mkRightDocUri p r2 } := by
  have hne := mkRightDocUri_ne_of_rand_ne p r1 r2 hr
  have hshow : (showDiff p c2 r2 (showDiff p c1 r1 s)).diffDocuments
      = setA (mkRightDocUri p r2)
          { originalFilePath := p, newContent := c2,
            rightDocUri := mkRightDocUri p r2 }
          (setA (mkRightDocUri p r1)
            { originalFilePath := p, newContent := c1,
              rightDocUri := mkRightDocUri p r1 } s.diffDocuments) := rfl
  refine ⟨hne, ?_, ?_⟩
  · rw [hshow, getA_setA_ne _ _ (Ne.symm hne)]
    exact getA_setA_self _ _ _
  · rw [hshow]
    exact getA_setA_self _ _ _

theorem c6_two_opens_two_diffviews_witness :
    mkRightDocUri "a.txt" "0.1" ≠ mkRightDocUri "a.txt" "0.2" ∧
    getA (mkRightDocUri "a.txt" "0.1")
        (showDiff "a.txt" "x" "0.2"
          (showDiff "a.txt" "x" "0.1"
            { diffDocuments := [], providerContent := [] })).diffDocuments
      = some { originalFilePath := "a.txt", newContent := "x",
               rightDocUri := mkRightDocUri "a.txt" "0.1" } ∧
    getA (mkRightDocUri "a.txt" "0.2")
        (showDiff "a.txt" "x" "0.2"
          (showDiff "a.txt" "x" "0.1"
            { diffDocuments := [], providerContent := [] })).diffDocuments
      = some { originalFilePath := "a.txt", newContent := "x",
               rightDocUri := mkRightDocUri "a.txt" "0.2" } :=
  c6_two_opens_two_diffviews { diffDocuments := [], providerContent := [] }
    "a.txt" "x" "x" "0.1" "0.2" (by decide)

/-- C7: accepting a registered diff reports the current (possibly
user-edited) content of the proposed-content surface for that identifier and
removes both the DiffView record and its content-cache entry; a subsequent
accept of the same identifier is a silent no-op (state unchanged, no event),
as is an accept of an identifier that was never registered. -/
theorem c7_accept_teardown_noop :
    (∀ (docText docText2 : DiffUri → String) (rightDocUri : DiffUri)
       (s : DiffState) (info : DiffInfo), DiffWF s →
       getA rightDocUri s.diffDocuments = some info →
       (acceptDiff docText rightDocUri s).2
           = some (.diffAccepted info.originalFilePath (docText rightDocUri)) ∧
       getA rightDocUri (acceptDiff docText rightDocUri s).1.diffDocuments
         = none ∧
       getA rightDocUri (acceptDiff docText rightDocUri s).1.providerContent
         = none ∧
       acceptDiff docText2 rightDocUri (acceptDiff docText rightDocUri s).1
         = ((acceptDiff docText rightDocUri s).1, none)) ∧
    (∀ (docText : DiffUri → String) (rightDocUri : DiffUri) (s : DiffState),
       getA rightDocUri s.diffDocuments = none →
       acceptDiff docText rightDocUri s = (s, none)) := by
  constructor
  · intro docText docText2 uri s info hwf hget
    have hclose : closeDiffEditor uri s
        = { diffDocuments := delA uri s.diffDocuments,
            providerContent := delA uri s.providerContent } := by
      unfold closeDiffEditor
      rw [hget]
    have hstate : (acceptDiff docText uri s).1
        = { diffDocuments := delA uri s.diffDocuments,
            providerContent := delA uri s.providerContent } := by
      unfold acceptDiff
      rw [hget]
      dsimp only
      exact hclose
    have hdocs : getA uri (delA uri s.diffDocuments) = none :=
      getA_delA_self uri _ hwf.1
    have hprov : getA uri (delA uri s.providerContent) = none :=
      getA_delA_self uri _ hwf.2
    refine ⟨?_, ?_, ?_, ?_⟩
    · unfold acceptDiff
      rw [hget]
    · rw [hstate]
      exact hdocs
    · rw [hstate]
      exact hprov
    · rw [hstate]
      unfold acceptDiff
      dsimp only
      rw [hdocs]
  · intro docText uri s hget
    unfold acceptDiff
    rw [hget]

theorem c7_accept_teardown_noop_witness :
    (acceptDiff (fun _ => "edited") (mkRightDocUri "a.txt" "0.5")
        { diffDocuments := [(mkRightDocUri "a.txt" "0.5",
            { originalFilePath := "a.txt", newContent := "x",
              rightDocUri := mkRightDocUri "a.txt" "0.5" })],
          providerContent := [(mkRightDocUri "a.txt" "0.5", "x")] }).2
      = some (.diffAccepted "a.txt" "edited") ∧
    getA (mkRightDocUri "a.txt" "0.5")
        (acceptDiff (fun _ => "edited") (mkRightDocUri "a.txt" "0.5")
          { diffDocuments := [(mkRightDocUri "a.txt" "0.5",
              { originalFilePath := "a.txt", newContent := "x",
                rightDocUri := mkRightDocUri "a.txt" "0.5" })],
            providerContent :=
              [(mkRightDocUri "a.txt" "0.5", "x")] }).1.diffDocuments
      = none ∧
    getA (mkRightDocUri "a.txt" "0.5")
        (acceptDiff (fun _ => "edited") (mkRightDocUri "a.txt" "0.5")
          { diffDocuments := [(mkRightDocUri "a.txt" "0.5",
              { originalFilePath := "a.txt", newContent := "x",
                rightDocUri := mkRightDocUri "a.txt" "0.5" })],
            providerContent :=
              [(mkRightDocUri "a.txt" "0.5", "x")] }).1.providerContent
      = none ∧
    acceptDiff (fun _ => "later") (mkRightDocUri "a.txt" "0.5")
        (acceptDiff (fun _ => "edited") (mkRightDocUri "a.txt" "0.5")
          { diffDocuments := [(mkRightDocUri "a.txt" "0.5",
              { originalFilePath := "a.txt", newContent := "x",
                rightDocUri := mkRightDocUri "a.txt" "0.5" })],
            providerContent := [(mkRightDocUri "a.txt" "0.5", "x")] }).1
      = ((acceptDiff (fun _ => "edited") (mkRightDocUri "a.txt" "0.5")
          { diffDocuments := [(mkRightDocUri "a.txt" "0.5",
              { originalFilePath := "a.txt", newContent := "x",
                rightDocUri := mkRightDocUri "a.txt" "0.5" })],
            providerContent := [(mkRightDocUri "a.txt" "0.5", "x")] }).1,
         none) :=
  c7_accept_teardown_noop.1 (fun _ => "edited") (fun _ => "later")
    (mkRightDocUri "a.txt" "0.5")
    { diffDocuments := [(mkRightDocUri "a.txt" "0.5",
        { originalFilePath := "a.txt", newContent := "x",
          rightDocUri := mkRightDocUri "a.txt" "0.5" })],
      providerContent := [(mkRightDocUri "a.txt" "0.5", "x")] }
    { originalFilePath := "a.txt", newContent := "x",
      rightDocUri := mkRightDocUri "a.txt" "0.5" }
    (by constructor <;> decide) (by decide)

/-- C8: from a fresh miss count, three consecutive unacknowledged pings
clear the keep-alive interval (no further pings: subsequent ticks change
nothing) but leave the session's transport-table entry in place; a
successful ping resets the miss count; no ping tick ever removes the table
entry — the entry and the timer are cleared by the transport's `onclose`. -/
theorem c8_three_missed_pings (s : KeepAliveState)
    (hact : s.intervalActive = true) (hin : s.inTable = true)
    (hm : s.missedPings = 0) :
    (pingTick .failed (pingTick .failed (pingTick .failed s))).intervalActive
      = false ∧
    (pingTick .failed (pingTick .failed (pingTick .failed s))).inTable
      = true ∧
    (∀ r, pingTick r (pingTick .failed (pingTick .failed (pingTick .failed s)))
        = pingTick .failed (pingTick .failed (pingTick .failed s))) ∧
    (pingTick .ok s).missedPings = 0 ∧
    (∀ (r : PingResult) (t : KeepAliveState),
       (pingTick r t).inTable = t.inTable) ∧
    (∀ t : KeepAliveState, (transportClose t).inTable = false
       ∧ (transportClose t).intervalActive = false) := by
  obtain ⟨m, a, tb⟩ := s
  have ha : a = true := hact
  have hmm : m = 0 := hm
  have htb : tb = true := hin
  subst ha hmm htb
  refine ⟨by decide, by decide, ?_, by decide, ?_, fun t => ⟨rfl, rfl⟩⟩
  · intro r
    rfl
  · intro r t
    obtain ⟨m2, a2, tb2⟩ := t
    cases a2 with
    | false => rfl
    | true =>
      cases r with
      | ok => rfl
      | failed =>
        by_cases h3 : 3 ≤ m2 + 1 <;> simp [pingTick, h3]

theorem c8_three_missed_pings_witness :
    (pingTick .failed (pingTick .failed (pingTick .failed
        { missedPings := 0, intervalActive := true, inTable := true
        }))).intervalActive = false ∧
    (pingTick .failed (pingTick .failed (pingTick .failed
        { missedPings := 0, intervalActive := true, inTable := true
        }))).inTable = true ∧
    (∀ r, pingTick r (pingTick .failed (pingTick .failed (pingTick .failed
        { missedPings := 0, intervalActive := true, inTable := true })))
      = pingTick .failed (pingTick .failed (pingTick .failed
          { missedPings := 0, intervalActive := true, inTable := true }))) ∧
    (pingTick .ok { missedPings := 0, intervalActive := true, inTable := true
        }).missedPings = 0 ∧
    (∀ (r : PingResult) (t : KeepAliveState),
       (pingTick r t).inTable = t.inTable) ∧
    (∀ t : KeepAliveState, (transportClose t).inTable = false
       ∧ (transportClose t).intervalActive = false) :=
  c8_three_missed_pings
    { missedPings := 0, intervalActive := true, inTable := true } rfl rfl rfl

/-- C9 is false as stated: a snapshot (`state`) taken while file `a` is
active copies only the id array; the subsequent activation of file `b`
mutates the shared record of `a` in place, so the fields observable through
the earlier snapshot change from active-with-cursor-and-selection to
cleared. -/
theorem c9_counterexample :
    observeRef c9snap c9s2 ≠ observeRef c9snap c9s1 ∧
    observeRef c9snap c9s1
      = [{ path := "a", timestamp := 1, isActive := true,
           cursor := some { line := 1, character := 0 },
           selectedText := some "sel" }] ∧
    observeRef c9snap c9s2
      = [{ path := "a", timestamp := 1, isActive := false,
           cursor := none, selectedText := none }] := by
  exact ⟨by decide, by decide, by decide⟩

/-- C9 (amended): `state` copies only the array, so removals (close/delete)
change nothing observable through an earlier snapshot (the record heap is
untouched); but the `File` records themselves are shared, so activating a
new file mutates the previously active record in place — every earlier
snapshot containing it then observes the record with its active flag,
cursor, and selection cleared. -/
theorem c9_amended_shallow_copy :
    (∀ (p : String) (s : RefState) (ids : List Nat),
       observeRef ids (removeRef p s) = observeRef ids s) ∧
    (∀ (e : Editor) (now : Nat) (s : RefState) (i : Nat) (ids : List Nat),
       RefWF s →
       s.openFiles.find? (fun j => (s.heap j).isActive) = some i →
       i ∈ ids →
       (addOrMoveToFrontRef e now s).heap i = clearFile (s.heap i) ∧
       clearFile (s.heap i) ∈ observeRef ids (addOrMoveToFrontRef e now s)) := by
  refine ⟨fun p s ids => rfl, ?_⟩
  intro e now s i ids hwf hfind hmem
  have hheap := addOrMoveToFrontRef_clears_shared e now s i hwf hfind
  exact ⟨hheap, List.mem_map.mpr ⟨i, hmem, hheap⟩⟩

theorem c9_amended_shallow_copy_witness :
    (addOrMoveToFrontRef c9editorB 2 c9s1).heap 0 = clearFile (c9s1.heap 0) ∧
    clearFile (c9s1.heap 0)
      ∈ observeRef [0] (addOrMoveToFrontRef c9editorB 2 c9s1) :=
  c9_amended_shallow_copy.2 c9editorB 2 c9s1 0 [0]
    (by decide) (by decide) (by decide)

/-- C10: a selection update with empty selected text on the active tracked
file stores an absent selectedText field (`none`), never the empty string;
and after any sequence of aggregator events no tracked file's selectedText
is the empty string. -/
theorem c10_no_empty_selection :
    (∀ (e : Editor) (l : List File) (f : File),
       l.find? (fun g => g.path == e.path) = some f → f.isActive = true →
       e.selText = "" →
       (updateActiveContext e l).find? (fun g => g.path == e.path)
         = some { f with cursor := editorCursor e, selectedText := none }) ∧
    (∀ evs : List OfmEvent, ∀ f ∈ runEvents evs,
       f.selectedText ≠ some "") := by
  constructor
  · intro e l f hf ha hempty
    have h2 := updateActiveContext_find e l f hf ha
    rw [show truncateSelected e.selText = none from by
      unfold truncateSelected
      rw [if_pos hempty]] at h2
    exact h2
  · intro evs
    exact (goodState_runEvents evs).2

theorem c10_no_empty_selection_witness :
    (updateActiveContext
        { path := "a", selLine := 3, selCharacter := 1, selText := "" }
        [{ path := "a", timestamp := 5, isActive := true,
           cursor := some { line := 2, character := 0 },
           selectedText := some "old" }]).find? (fun g => g.path == "a")
      = some { path := "a", timestamp := 5, isActive := true,
               cursor := editorCursor
                 { path := "a", selLine := 3, selCharacter := 1,
                   selText := "" },
               selectedText := none } :=
  c10_no_empty_selection.1
    { path := "a", selLine := 3, selCharacter := 1, selText := "" }
    [{ path := "a", timestamp := 5, isActive := true,
       cursor := some { line := 2, character := 0 },
       selectedText := some "old" }]
    { path := "a", timestamp := 5, isActive := true,
      cursor := some { line := 2, character := 0 },
      selectedText := some "old" }
    (by decide) rfl rfl
